import Mathlib

/-!
Shallow embedding of the core game logic of `bevy_tetris`
(src/game_logic.rs, src/input.rs, src/tetromino.rs, src/components.rs,
src/constants.rs, src/game_state.rs), together with proofs of the
specification's testable properties.

Bevy entities carrying a `GridPosition` component are modelled as list
elements: the static board is a `List GridPosition` (one element per
static block entity) and the active piece is a `List Block` (position
plus the presence of the `RotationCenter` marker component).  Systems
become pure functions on an explicit `World` state.
-/

namespace BevyTetris

/-- Constant `GRID_SIZE_X` from src/constants.rs. -/
def GRID_SIZE_X : Int := 10

/-- Constant `GRID_SIZE_Y` from src/constants.rs. -/
def GRID_SIZE_Y : Int := 20

/-- Component `GridPosition` from src/components.rs: integer grid coordinates. -/
structure GridPosition where
  x : Int
  y : Int
deriving DecidableEq, Repr

/-- Enum `Shape` from src/components.rs: the seven tetromino shapes. -/
inductive Shape where
  | I | O | T | L | J | S | Z
deriving DecidableEq, Repr

/-- Enum `GameState` from src/game_state.rs. -/
inductive GameState where
  | Title | Playing | Paused | Spawning | GameOver
deriving DecidableEq, Repr

/-- One block entity of the active tetromino: its `GridPosition` and whether
it carries the `RotationCenter` marker component. -/
structure Block where
  pos : GridPosition
  isCenter : Bool
deriving DecidableEq, Repr

/-- Function `check_collision` from src/game_logic.rs: true when the candidate
position is outside the left/right walls, below the floor, or coincides with a
static block.  There is no upper bound on `y`. -/
def check_collision (new_pos : GridPosition) (static_blocks : List GridPosition) : Bool :=
  if new_pos.x < 0 ∨ GRID_SIZE_X ≤ new_pos.x ∨ new_pos.y < 0 then
    true
  else
    static_blocks.any fun static_pos => static_pos.x == new_pos.x && static_pos.y == new_pos.y

/-- Candidate position of a block after a horizontal move by `direction`
(src/input.rs, `handle_horizontal_movement`). -/
def hCand (direction : Int) (p : GridPosition) : GridPosition :=
  { x := p.x + direction, y := p.y }

/-- Candidate position of a block after a vertical move by `direction`
(src/input.rs, `handle_vertical_movement`). -/
def vCand (direction : Int) (p : GridPosition) : GridPosition :=
  { x := p.x, y := p.y + direction }

/-- Function `handle_horizontal_movement` from src/input.rs: all four candidate
positions are tested against the static board; the piece moves only when every
candidate is free (the source's early-exit loop computes exactly this `any`). -/
def handle_horizontal_movement (active : List Block) (static_blocks : List GridPosition)
    (direction : Int) : List Block :=
  if active.any (fun b => check_collision (hCand direction b.pos) static_blocks) then
    active
  else
    active.map fun b => { b with pos := hCand direction b.pos }

/-- Function `handle_vertical_movement` from src/input.rs. -/
def handle_vertical_movement (active : List Block) (static_blocks : List GridPosition)
    (direction : Int) : List Block :=
  if active.any (fun b => check_collision (vCand direction b.pos) static_blocks) then
    active
  else
    active.map fun b => { b with pos := vCand direction b.pos }

/-- Rotation centre used by `handle_rotation` (src/input.rs): the current
position of the first active block carrying `RotationCenter`, defaulting to
`(0, 0)` when no block carries the marker. -/
def rotationCenterPos (active : List Block) : GridPosition :=
  ((active.find? fun b => b.isCenter).map fun b => b.pos).getD { x := 0, y := 0 }

/-- Candidate position of one block under a 90-degree clockwise rotation about
centre `c`: relative offset `(rx, ry)` becomes `(ry, -rx)` (src/input.rs). -/
def rotCand (c : GridPosition) (p : GridPosition) : GridPosition :=
  { x := (p.y - c.y) + c.x, y := -(p.x - c.x) + c.y }

/-- Function `handle_rotation` from src/input.rs: rotate every active block
about the rotation centre, committing only when every candidate is free. -/
def handle_rotation (active : List Block) (static_blocks : List GridPosition) : List Block :=
  let c := rotationCenterPos active
  if active.any (fun b => check_collision (rotCand c b.pos) static_blocks) then
    active
  else
    active.map fun b => { b with pos := rotCand c b.pos }

end BevyTetris

namespace BevyTetris

/-- Positions of the four active blocks of the O shape whose lower-left block
sits at `(a, b)` (offsets `(0,0), (0,1), (1,0), (1,1)` from
`get_tetromino_blocks` in src/tetromino.rs); `get_rotation_center_index`
returns `None` for the O shape, so no block carries `RotationCenter`. -/
def oPieceAt (a b : Int) : List Block :=
  [⟨⟨a, b⟩, false⟩, ⟨⟨a, b + 1⟩, false⟩, ⟨⟨a + 1, b⟩, false⟩, ⟨⟨a + 1, b + 1⟩, false⟩]

/-! ### C3: characterisation of `check_collision` -/

lemma check_collision_true_iff (p : GridPosition) (S : List GridPosition) :
    check_collision p S = true ↔ (p.x < 0 ∨ 10 ≤ p.x ∨ p.y < 0 ∨ p ∈ S) := by
  unfold check_collision GRID_SIZE_X
  split
  · rename_i h
    simp only [true_iff]
    rcases h with h | h | h
    · exact Or.inl h
    · exact Or.inr (Or.inl h)
    · exact Or.inr (Or.inr (Or.inl h))
  · rename_i h
    push_neg at h
    obtain ⟨h1, h2, h3⟩ := h
    simp only [List.any_eq_true, Bool.and_eq_true, beq_iff_eq]
    constructor
    · rintro ⟨s, hs, hx, hy⟩
      refine Or.inr (Or.inr (Or.inr ?_))
      have : s = p := by
        cases s; cases p
        simp_all
      exact this ▸ hs
    · rintro (h | h | h | h)
      · exact absurd h (not_lt.mpr h1)
      · exact absurd h (not_le.mpr h2)
      · exact absurd h (not_lt.mpr h3)
      · exact ⟨p, h, rfl, rfl⟩

lemma check_collision_false_props (p : GridPosition) (S : List GridPosition)
    (h : check_collision p S = false) :
    0 ≤ p.x ∧ p.x < 10 ∧ 0 ≤ p.y ∧ p ∉ S := by
  have hiff := check_collision_true_iff p S
  rw [h] at hiff
  have hnot := (not_iff_not.mpr hiff).mp (by simp)
  push_neg at hnot
  exact ⟨hnot.1, hnot.2.1, hnot.2.2.1, hnot.2.2.2⟩

/-- C3. `check_collision p S` is true exactly when `p.x < 0`, `p.x ≥ 10`,
`p.y < 0`, or `p` is a member of `S`; in particular there is no upper bound
on `y`, and the function is pure. -/
theorem check_collision_iff (p : GridPosition) (S : List GridPosition) :
    check_collision p S = true ↔ (p.x < 0 ∨ 10 ≤ p.x ∨ p.y < 0 ∨ p ∈ S) :=
  check_collision_true_iff p S

end BevyTetris

namespace BevyTetris

/-! ### C1: translation and rotation are all-or-nothing -/

lemma handle_horizontal_blocked (active : List Block) (static_blocks : List GridPosition)
    (d : Int) (h : ∃ b ∈ active, check_collision (hCand d b.pos) static_blocks = true) :
    handle_horizontal_movement active static_blocks d = active := by
  obtain ⟨b, hb, hcol⟩ := h
  have hany : (active.any fun b => check_collision (hCand d b.pos) static_blocks) = true :=
    List.any_eq_true.mpr ⟨b, hb, hcol⟩
  simp [handle_horizontal_movement, hany]

lemma handle_horizontal_free (active : List Block) (static_blocks : List GridPosition)
    (d : Int) (h : ∀ b ∈ active, check_collision (hCand d b.pos) static_blocks = false) :
    handle_horizontal_movement active static_blocks d =
      active.map fun b => { b with pos := hCand d b.pos } := by
  have hany : (active.any fun b => check_collision (hCand d b.pos) static_blocks) = false := by
    simp only [List.any_eq_false]
    intro b hb
    simp [h b hb]
  simp [handle_horizontal_movement, hany]

lemma handle_vertical_blocked (active : List Block) (static_blocks : List GridPosition)
    (d : Int) (h : ∃ b ∈ active, check_collision (vCand d b.pos) static_blocks = true) :
    handle_vertical_movement active static_blocks d = active := by
  obtain ⟨b, hb, hcol⟩ := h
  have hany : (active.any fun b => check_collision (vCand d b.pos) static_blocks) = true :=
    List.any_eq_true.mpr ⟨b, hb, hcol⟩
  simp [handle_vertical_movement, hany]

lemma handle_vertical_free (active : List Block) (static_blocks : List GridPosition)
    (d : Int) (h : ∀ b ∈ active, check_collision (vCand d b.pos) static_blocks = false) :
    handle_vertical_movement active static_blocks d =
      active.map fun b => { b with pos := vCand d b.pos } := by
  have hany : (active.any fun b => check_collision (vCand d b.pos) static_blocks) = false := by
    simp only [List.any_eq_false]
    intro b hb
    simp [h b hb]
  simp [handle_vertical_movement, hany]

lemma handle_rotation_blocked (active : List Block) (static_blocks : List GridPosition)
    (h : ∃ b ∈ active,
      check_collision (rotCand (rotationCenterPos active) b.pos) static_blocks = true) :
    handle_rotation active static_blocks = active := by
  obtain ⟨b, hb, hcol⟩ := h
  have hany : (active.any fun b =>
      check_collision (rotCand (rotationCenterPos active) b.pos) static_blocks) = true :=
    List.any_eq_true.mpr ⟨b, hb, hcol⟩
  simp [handle_rotation, hany]

lemma handle_rotation_free (active : List Block) (static_blocks : List GridPosition)
    (h : ∀ b ∈ active,
      check_collision (rotCand (rotationCenterPos active) b.pos) static_blocks = false) :
    handle_rotation active static_blocks =
      active.map fun b => { b with pos := rotCand (rotationCenterPos active) b.pos } := by
  have hany : (active.any fun b =>
      check_collision (rotCand (rotationCenterPos active) b.pos) static_blocks) = false := by
    simp only [List.any_eq_false]
    intro b hb
    simp [h b hb]
  simp [handle_rotation, hany]

/-- C1. Translation and rotation of the active piece are atomic: each
operation tests every candidate position with `check_collision` against the
static board; if any candidate is blocked no block position changes, and if
none is blocked every block moves to its candidate position. -/
theorem translate_rotate_atomic (active : List Block) (static_blocks : List GridPosition)
    (d : Int) :
    ((∃ b ∈ active, check_collision (hCand d b.pos) static_blocks = true) →
      handle_horizontal_movement active static_blocks d = active) ∧
    ((∀ b ∈ active, check_collision (hCand d b.pos) static_blocks = false) →
      handle_horizontal_movement active static_blocks d =
        active.map fun b => { b with pos := hCand d b.pos }) ∧
    ((∃ b ∈ active, check_collision (vCand d b.pos) static_blocks = true) →
      handle_vertical_movement active static_blocks d = active) ∧
    ((∀ b ∈ active, check_collision (vCand d b.pos) static_blocks = false) →
      handle_vertical_movement active static_blocks d =
        active.map fun b => { b with pos := vCand d b.pos }) ∧
    ((∃ b ∈ active,
        check_collision (rotCand (rotationCenterPos active) b.pos) static_blocks = true) →
      handle_rotation active static_blocks = active) ∧
    ((∀ b ∈ active,
        check_collision (rotCand (rotationCenterPos active) b.pos) static_blocks = false) →
      handle_rotation active static_blocks =
        active.map fun b => { b with pos := rotCand (rotationCenterPos active) b.pos }) :=
  ⟨handle_horizontal_blocked active static_blocks d,
   handle_horizontal_free active static_blocks d,
   handle_vertical_blocked active static_blocks d,
   handle_vertical_free active static_blocks d,
   handle_rotation_blocked active static_blocks,
   handle_rotation_free active static_blocks⟩

/-- Demonstration piece used by the witnesses: an O piece at `(4, 0)`. -/
def demoPiece : List Block := oPieceAt 4 0

/-- Witness for C1: with a static block at `(6, 0)` a move right is wholly
rejected, and on an empty board a move right moves all four blocks. -/
theorem translate_rotate_atomic_witness :
    handle_horizontal_movement demoPiece [{ x := 6, y := 0 }] 1 = demoPiece ∧
    handle_horizontal_movement demoPiece [] 1 =
      demoPiece.map (fun b => { b with pos := hCand 1 b.pos }) :=
  ⟨(translate_rotate_atomic demoPiece [{ x := 6, y := 0 }] 1).1 (by decide),
   (translate_rotate_atomic demoPiece [] 1).2.1 (by decide)⟩

/-! ### C4: rotating the O piece never changes its cells -/

/-- C4. Rotating the active O piece never changes the set of grid cells it
occupies: since the O shape has no `RotationCenter` block, the rotation centre
defaults to `(0, 0)`, every legal O placement produces a candidate below the
floor, and the rotation is rejected wholesale, leaving all positions
unchanged. -/
theorem rotate_O_unchanged (a b : Int) (static_blocks : List GridPosition)
    (ha0 : 0 ≤ a) (ha1 : a + 1 < 10) (hb0 : 0 ≤ b) :
    handle_rotation (oPieceAt a b) static_blocks = oPieceAt a b := by
  have hc : rotationCenterPos (oPieceAt a b) = { x := 0, y := 0 } := rfl
  have hblocked :
      check_collision (rotCand { x := 0, y := 0 } { x := a + 1, y := b }) static_blocks = true := by
    unfold check_collision rotCand
    rw [if_pos]
    right; right
    simp only
    omega
  exact handle_rotation_blocked (oPieceAt a b) static_blocks
    ⟨⟨{ x := a + 1, y := b }, false⟩, by simp [oPieceAt], by rw [hc]; exact hblocked⟩

/-- Witness for C4: rotating the O piece at `(4, 5)` on an empty board leaves
it unchanged. -/
theorem rotate_O_unchanged_witness :
    handle_rotation (oPieceAt 4 5) [] = oPieceAt 4 5 :=
  rotate_O_unchanged 4 5 [] (by decide) (by decide) (by decide)

end BevyTetris

namespace BevyTetris

/-! ### Line-clear engine (`clear_lines`, src/game_logic.rs)

The source groups the static block entities by their row `y` into a map built
once before the loop, then sweeps `y = 0 .. GRID_SIZE_Y-1` ascending: a row
holding exactly `GRID_SIZE_X = 10` entities is despawned and the running
`cleared_rows` counter incremented; otherwise, when `cleared_rows > 0`, every
entity of that (original) row moves down by `cleared_rows`.  The sweep state
below pairs each block with its original row, mirroring the prebuilt map. -/

/-- One iteration (row `y`) of the ascending sweep of `clear_lines`. -/
def clearStep (st : List (Int × GridPosition) × Nat) (y : Nat) :
    List (Int × GridPosition) × Nat :=
  if (st.1.filter fun b => b.1 = (y : Int)).length = 10 then
    (st.1.filter fun b => ¬ b.1 = (y : Int), st.2 + 1)
  else if 0 < st.2 then
    (st.1.map fun b =>
      if b.1 = (y : Int) then (b.1, GridPosition.mk b.2.x (b.2.y - (st.2 : Int))) else b,
     st.2)
  else
    st

/-- Pairing of every static block with its original row, as the prebuilt
`rows` map of `clear_lines` records it. -/
def initPairs (blocks : List GridPosition) : List (Int × GridPosition) :=
  blocks.map fun p => (p.y, p)

/-- Full ascending sweep of `clear_lines` over rows `0 .. 19`
(`GRID_SIZE_Y = 20`): the final block list (tagged with original rows) and the
final `cleared_rows` counter. -/
def clear_lines_sweep (blocks : List GridPosition) : List (Int × GridPosition) × Nat :=
  (List.range 20).foldl clearStep (initPairs blocks, 0)

/-- Resulting static board after `clear_lines` rearranges the blocks. -/
def clear_lines_blocks (blocks : List GridPosition) : List GridPosition :=
  (clear_lines_sweep blocks).1.map fun b => b.2

/-- Number of rows removed by `clear_lines` (the final `cleared_rows`). -/
def cleared_rows (blocks : List GridPosition) : Nat :=
  (clear_lines_sweep blocks).2

/-- Number of blocks of `blocks` lying in row `y`. -/
def rowCount (blocks : List GridPosition) (y : Int) : Nat :=
  (blocks.filter fun p => p.y = y).length

/-- Number of full rows among rows `0 .. n-1`. -/
def shiftAtN (blocks : List GridPosition) (n : Nat) : Nat :=
  ((List.range n).filter fun (r : Nat) => rowCount blocks (r : Int) = 10).length

/-- Effect of the first `n` sweep iterations on a single tagged block. -/
def sweepMap (blocks : List GridPosition) (n : Nat) (b : Int × GridPosition) :
    Option (Int × GridPosition) :=
  if 0 ≤ b.1 ∧ b.1 < (n : Int) then
    if rowCount blocks b.1 = 10 then none
    else some (b.1, GridPosition.mk b.2.x (b.2.y - (shiftAtN blocks b.1.toNat : Int)))
  else some b

lemma shiftAtN_succ (blocks : List GridPosition) (n : Nat) :
    shiftAtN blocks (n + 1) =
      shiftAtN blocks n + (if rowCount blocks (n : Int) = 10 then 1 else 0) := by
  unfold shiftAtN
  rw [List.range_succ, List.filter_append, List.length_append]
  by_cases h : rowCount blocks (n : Int) = 10 <;> simp [h]

lemma shiftAtN_le (blocks : List GridPosition) (n : Nat) : shiftAtN blocks n ≤ n := by
  calc shiftAtN blocks n ≤ (List.range n).length := List.length_filter_le _ _
  _ = n := List.length_range n

lemma sweep_filterMap_filter {α β : Type} (l : List α) (f : α → Option β) (p : β → Bool) :
    (l.filterMap f).filter p = l.filterMap fun a => Option.filter p (f a) := by
  induction l with
  | nil => rfl
  | cons a l ih =>
    rw [List.filterMap_cons]
    cases h : f a with
    | none => simp [List.filterMap_cons, h, Option.filter, ih]
    | some b =>
      by_cases hp : p b <;>
        simp [List.filterMap_cons, h, Option.filter, hp, List.filter_cons, ih]

lemma sweep_filterMap_mapout {α β γ : Type} (l : List α) (f : α → Option β) (g : β → γ) :
    (l.filterMap f).map g = l.filterMap fun a => (f a).map g := by
  induction l with
  | nil => rfl
  | cons a l ih =>
    rw [List.filterMap_cons]
    cases h : f a with
    | none => simp [List.filterMap_cons, h, ih]
    | some b => simp [List.filterMap_cons, h, ih]

lemma sweep_filterMap_mapin {α β γ : Type} (l : List α) (f : α → β) (g : β → Option γ) :
    (l.map f).filterMap g = l.filterMap fun a => g (f a) := by
  induction l with
  | nil => rfl
  | cons a l ih => simp [List.filterMap_cons, ih]

lemma sweep_filterMap_guard {α : Type} (l : List α) (q : α → Prop) [DecidablePred q] :
    (l.filterMap fun a => if q a then some a else none) = l.filter fun a => q a := by
  induction l with
  | nil => rfl
  | cons a l ih =>
    by_cases hp : q a <;> simp [List.filterMap_cons, List.filter_cons, hp, ih]

lemma sweep_filterMap_id {α : Type} (l : List α) :
    (l.filterMap fun a => some a) = l := by
  induction l with
  | nil => rfl
  | cons a l ih => simp [List.filterMap_cons, ih]

end BevyTetris

namespace BevyTetris

lemma sweepMap_zero (blocks : List GridPosition) (b : Int × GridPosition) :
    sweepMap blocks 0 b = some b := by
  unfold sweepMap
  rw [if_neg]
  omega

lemma sweepMap_row (blocks : List GridPosition) (n : Nat) (b : Int × GridPosition) :
    Option.filter (fun x => x.1 = (n : Int)) (sweepMap blocks n b) =
      if b.1 = (n : Int) then some b else none := by
  unfold sweepMap
  by_cases hin : 0 ≤ b.1 ∧ b.1 < (n : Int)
  · rw [if_pos hin]
    have hne : ¬ b.1 = (n : Int) := by omega
    by_cases hfull : rowCount blocks b.1 = 10
    · simp [hfull, Option.filter, hne]
    · simp [hfull, Option.filter, hne]
  · rw [if_neg hin]
    by_cases hb : b.1 = (n : Int) <;> simp [Option.filter, hb]

lemma sweepMap_step_full (blocks : List GridPosition) (n : Nat)
    (hfull : rowCount blocks (n : Int) = 10) (b : Int × GridPosition) :
    Option.filter (fun x => ¬ x.1 = (n : Int)) (sweepMap blocks n b) =
      sweepMap blocks (n + 1) b := by
  unfold sweepMap
  by_cases hin : 0 ≤ b.1 ∧ b.1 < (n : Int)
  · have hin' : 0 ≤ b.1 ∧ b.1 < ((n + 1 : Nat) : Int) := by omega
    have hne : ¬ b.1 = (n : Int) := by omega
    rw [if_pos hin, if_pos hin']
    by_cases hfb : rowCount blocks b.1 = 10
    · simp [hfb, Option.filter]
    · simp [hfb, Option.filter, hne]
  · rw [if_neg hin]
    by_cases hb : b.1 = (n : Int)
    · have hin' : 0 ≤ b.1 ∧ b.1 < ((n + 1 : Nat) : Int) := by omega
      have hfb : rowCount blocks b.1 = 10 := by rw [hb]; exact hfull
      rw [if_pos hin']
      simp [hfb, Option.filter, hb, hfull]
    · have hin' : ¬ (0 ≤ b.1 ∧ b.1 < ((n + 1 : Nat) : Int)) := by omega
      rw [if_neg hin']
      simp [Option.filter, hb]

lemma sweepMap_step_shift (blocks : List GridPosition) (n : Nat)
    (hnot : ¬ rowCount blocks (n : Int) = 10) (b : Int × GridPosition) :
    (sweepMap blocks n b).map
        (fun x => if x.1 = (n : Int)
          then (x.1, GridPosition.mk x.2.x (x.2.y - (shiftAtN blocks n : Int))) else x) =
      sweepMap blocks (n + 1) b := by
  unfold sweepMap
  by_cases hin : 0 ≤ b.1 ∧ b.1 < (n : Int)
  · have hin' : 0 ≤ b.1 ∧ b.1 < ((n + 1 : Nat) : Int) := by omega
    have hne : ¬ b.1 = (n : Int) := by omega
    rw [if_pos hin, if_pos hin']
    by_cases hfb : rowCount blocks b.1 = 10
    · simp [hfb]
    · simp [hfb, hne]
  · rw [if_neg hin]
    by_cases hb : b.1 = (n : Int)
    · have hin' : 0 ≤ b.1 ∧ b.1 < ((n + 1 : Nat) : Int) := by omega
      have hfb : ¬ rowCount blocks b.1 = 10 := by rw [hb]; exact hnot
      have htn : b.1.toNat = n := by omega
      rw [if_pos hin']
      simp [hfb, hb, htn, hnot]
    · have hin' : ¬ (0 ≤ b.1 ∧ b.1 < ((n + 1 : Nat) : Int)) := by omega
      rw [if_neg hin']
      simp [hb]

lemma sweepMap_step_id (blocks : List GridPosition) (n : Nat)
    (hnot : ¬ rowCount blocks (n : Int) = 10) (hz : shiftAtN blocks n = 0)
    (b : Int × GridPosition) :
    sweepMap blocks n b = sweepMap blocks (n + 1) b := by
  unfold sweepMap
  by_cases hin : 0 ≤ b.1 ∧ b.1 < (n : Int)
  · have hin' : 0 ≤ b.1 ∧ b.1 < ((n + 1 : Nat) : Int) := by omega
    rw [if_pos hin, if_pos hin']
  · rw [if_neg hin]
    by_cases hb : b.1 = (n : Int)
    · have hin' : 0 ≤ b.1 ∧ b.1 < ((n + 1 : Nat) : Int) := by omega
      have hfb : ¬ rowCount blocks b.1 = 10 := by rw [hb]; exact hnot
      have htn : b.1.toNat = n := by omega
      rw [if_pos hin']
      simp [hfb, htn, hz]
    · have hin' : ¬ (0 ≤ b.1 ∧ b.1 < ((n + 1 : Nat) : Int)) := by omega
      rw [if_neg hin']

lemma initPairs_row_length (blocks : List GridPosition) (y : Int) :
    ((initPairs blocks).filter fun b => b.1 = y).length = rowCount blocks y := by
  unfold initPairs rowCount
  induction blocks with
  | nil => rfl
  | cons p l ih =>
    by_cases hp : p.y = y <;> simp [List.filter_cons, hp, ih]

lemma sweep_foldl_eq (blocks : List GridPosition) (n : Nat) :
    (List.range n).foldl clearStep (initPairs blocks, 0) =
      ((initPairs blocks).filterMap (sweepMap blocks n), shiftAtN blocks n) := by
  induction n with
  | zero =>
    rw [List.range_zero, List.foldl_nil]
    rw [List.filterMap_congr (fun b _ => sweepMap_zero blocks b), sweep_filterMap_id]
    rfl
  | succ n ih =>
    rw [List.range_succ, List.foldl_append, ih, List.foldl_cons, List.foldl_nil]
    have hrow : ((((initPairs blocks).filterMap (sweepMap blocks n)).filter
        fun b => b.1 = (n : Int)).length) = rowCount blocks (n : Int) := by
      rw [sweep_filterMap_filter,
        List.filterMap_congr (fun b _ => sweepMap_row blocks n b),
        sweep_filterMap_guard, initPairs_row_length]
    unfold clearStep
    by_cases hfull : rowCount blocks (n : Int) = 10
    · rw [if_pos (by rw [hrow]; exact hfull)]
      rw [shiftAtN_succ, if_pos hfull]
      rw [sweep_filterMap_filter,
        List.filterMap_congr (fun b _ => sweepMap_step_full blocks n hfull b)]
    · rw [if_neg (by rw [hrow]; exact hfull)]
      rw [shiftAtN_succ, if_neg hfull, Nat.add_zero]
      by_cases hz : 0 < shiftAtN blocks n
      · rw [if_pos hz]
        rw [sweep_filterMap_mapout,
          List.filterMap_congr (fun b _ => sweepMap_step_shift blocks n hfull b)]
        simp
      · rw [if_neg hz]
        rw [List.filterMap_congr
          (fun b _ => sweepMap_step_id blocks n hfull (by omega) b)]
        simp

/-- Effect of the whole sweep on one block of the original board: blocks of a
full visible row disappear; surviving blocks of visible rows drop by the
number of full rows strictly below; blocks outside rows `0 .. 19` are never
visited and stay put. -/
def clearedPos (blocks : List GridPosition) (p : GridPosition) : Option GridPosition :=
  if 0 ≤ p.y ∧ p.y < 20 then
    if rowCount blocks p.y = 10 then none
    else some (GridPosition.mk p.x (p.y - (shiftAtN blocks p.y.toNat : Int)))
  else some p

lemma clear_lines_blocks_eq (blocks : List GridPosition) :
    clear_lines_blocks blocks = blocks.filterMap (clearedPos blocks) := by
  unfold clear_lines_blocks clear_lines_sweep
  rw [sweep_foldl_eq]
  unfold initPairs
  rw [sweep_filterMap_mapout, sweep_filterMap_mapin]
  refine List.filterMap_congr fun p _ => ?_
  unfold sweepMap clearedPos
  by_cases hin : 0 ≤ p.y ∧ p.y < 20
  · have hin' : 0 ≤ p.y ∧ p.y < ((20 : Nat) : Int) := by omega
    rw [if_pos hin', if_pos hin]
    by_cases hfull : rowCount blocks p.y = 10 <;> simp [hfull]
  · have hin' : ¬ (0 ≤ p.y ∧ p.y < ((20 : Nat) : Int)) := by omega
    rw [if_neg hin', if_neg hin]
    rfl

lemma cleared_rows_eq (blocks : List GridPosition) :
    cleared_rows blocks = shiftAtN blocks 20 := by
  unfold cleared_rows clear_lines_sweep
  rw [sweep_foldl_eq]

end BevyTetris

namespace BevyTetris

/-! ### C2: the ascending sweep versus clear-then-compact -/

lemma sweep_filter_map_eq {α β : Type} (l : List α) (q : α → Prop) [DecidablePred q]
    (g : α → β) :
    ((l.filter fun a => q a).map g) = l.filterMap fun a => if q a then some (g a) else none := by
  induction l with
  | nil => rfl
  | cons a l ih =>
    by_cases hp : q a <;> simp [List.filter_cons, List.filterMap_cons, hp, ih]

/-- Modelled from the spec: the number of full rows strictly below row `y`
(rows `0 ≤ r < y` holding exactly 10 blocks). -/
def fullRowsBelow (blocks : List GridPosition) (y : Int) : Nat :=
  ((List.range y.toNat).filter fun (r : Nat) => rowCount blocks (r : Int) = 10).length

/-- Modelled from the spec: the reference clear-then-compact transformation —
every full row (exactly 10 occupied cells) is removed, and every remaining
block drops by the number of removed rows strictly below it. -/
def clearThenCompact (blocks : List GridPosition) : List GridPosition :=
  (blocks.filter fun p => ¬ rowCount blocks p.y = 10).map
    fun p => GridPosition.mk p.x (p.y - (fullRowsBelow blocks p.y : Int))

/-- Board of the concrete scenario: rows 0 and 2 full, one block at `(0, 1)`
in the (not full) row 1, and one block at `(3, 5)` above row 2. -/
def fullRowAt (y : Int) : List GridPosition :=
  (List.range 10).map fun (x : Nat) => GridPosition.mk (x : Int) y

def demoBoard : List GridPosition :=
  fullRowAt 0 ++ [GridPosition.mk 0 1] ++ fullRowAt 2 ++ [GridPosition.mk 3 5]

/-- C2 (amended). For every static board whose blocks all lie in the swept
rows `0 ≤ y < 20`, the single ascending sweep of `clear_lines` produces the
same board as the reference clear-then-compact definition; in the concrete
scenario (rows 0 and 2 full, row 1 not full) rows 0 and 2 are removed, the
block at `(0, 1)` ends at `(0, 0)`, the block at `(3, 5)` drops by 2, and two
rows are counted as cleared.  The sweep of the source visits rows `0 .. 19`
only, so the restriction to such boards is necessary (see the
counterexample). -/
theorem clear_lines_refines_clearThenCompact :
    (∀ blocks : List GridPosition, (∀ p ∈ blocks, 0 ≤ p.y ∧ p.y < 20) →
      clear_lines_blocks blocks = clearThenCompact blocks) ∧
    clear_lines_blocks demoBoard = [GridPosition.mk 0 0, GridPosition.mk 3 3] ∧
    cleared_rows demoBoard = 2 := by
  refine ⟨?_, by decide, by decide⟩
  intro blocks hbound
  rw [clear_lines_blocks_eq]
  unfold clearThenCompact
  rw [sweep_filter_map_eq]
  refine (List.filterMap_congr fun p hp => ?_).symm
  obtain ⟨hy0, hy20⟩ := hbound p hp
  have hcp : clearedPos blocks p =
      if rowCount blocks p.y = 10 then none
      else some (GridPosition.mk p.x (p.y - (shiftAtN blocks p.y.toNat : Int))) := by
    unfold clearedPos
    rw [if_pos (show 0 ≤ p.y ∧ p.y < 20 from ⟨hy0, hy20⟩)]
  rw [hcp]
  by_cases hfull : rowCount blocks p.y = 10
  · simp [hfull]
  · simp only [hfull, if_neg, ite_false, not_false_eq_true, ite_true]
    rfl

/-- Witness for C2: the amended equivalence applied to the scenario board. -/
theorem clear_lines_refines_clearThenCompact_witness :
    clear_lines_blocks demoBoard = clearThenCompact demoBoard :=
  clear_lines_refines_clearThenCompact.1 demoBoard (by decide)

/-- Board with a full bottom row and one block at `(0, 20)`, above the swept
rows (a block can come to rest at `y = 20`: several shapes spawn with a block
there). -/
def overhangBoard : List GridPosition :=
  fullRowAt 0 ++ [GridPosition.mk 0 20]

/-- Counterexample to C2 as stated: on `overhangBoard` the sweep leaves the
block at `(0, 20)` in place (the sweep stops below row 20), while
clear-then-compact drops it to `(0, 19)`. -/
theorem clear_lines_not_clearThenCompact :
    clear_lines_blocks overhangBoard ≠ clearThenCompact overhangBoard := by
  decide

end BevyTetris

namespace BevyTetris

/-! ### The game world and the remaining systems

Resources `Score`, `LinesCleared` and `Level` are `u32` in the source
(src/resources.rs); they are modelled as `Nat`.  Every update the claims
concern stays far below `2^32`, and overflowing `u32` arithmetic panics in a
debug build rather than wrapping, so the `Nat` model agrees with the source
wherever the additions complete.  `level` starts at 1 and only ever
increments, so the `u32` subtraction `level - 1` in `clear_lines` matches
truncated `Nat` subtraction on every reachable value. -/

structure World where
  staticBlocks : List GridPosition
  active : List Block
  state : GameState
  score : Nat
  lines : Nat
  level : Nat
  nextPiece : Shape
deriving DecidableEq, Repr

/-- Scoring table of `clear_lines` (src/game_logic.rs, the `match`). -/
def points (cleared : Nat) : Nat :=
  match cleared with
  | 1 => 40
  | 2 => 100
  | 3 => 300
  | 4 => 1200
  | _ => 0

/-- System `clear_lines` from src/game_logic.rs: rearrange the static board by
the ascending sweep, then, when at least one row was cleared, award
`points(n) * (level + 1)`, add `n` to the lines total, and raise the level by
one when `lines / 5 > level - 1`. -/
def clear_lines (w : World) : World :=
  let n := cleared_rows w.staticBlocks
  let bs := clear_lines_blocks w.staticBlocks
  if 0 < n then
    let score' := w.score + points n * (w.level + 1)
    let lines' := w.lines + n
    let level' := if w.level - 1 < lines' / 5 then w.level + 1 else w.level
    { w with staticBlocks := bs, score := score', lines := lines', level := level' }
  else
    { w with staticBlocks := bs }

/-- Function `get_tetromino_blocks` from src/tetromino.rs. -/
def get_tetromino_blocks (shape : Shape) : List GridPosition :=
  match shape with
  | .I => [⟨-1, 0⟩, ⟨0, 0⟩, ⟨1, 0⟩, ⟨2, 0⟩]
  | .O => [⟨0, 0⟩, ⟨0, 1⟩, ⟨1, 0⟩, ⟨1, 1⟩]
  | .T => [⟨0, 0⟩, ⟨-1, 0⟩, ⟨1, 0⟩, ⟨0, 1⟩]
  | .L => [⟨0, 0⟩, ⟨-1, 0⟩, ⟨1, 0⟩, ⟨1, 1⟩]
  | .J => [⟨0, 0⟩, ⟨-1, 0⟩, ⟨1, 0⟩, ⟨-1, 1⟩]
  | .S => [⟨0, 0⟩, ⟨1, 0⟩, ⟨0, 1⟩, ⟨-1, 1⟩]
  | .Z => [⟨0, 0⟩, ⟨-1, 0⟩, ⟨0, 1⟩, ⟨1, 1⟩]

/-- Function `get_rotation_center_index` from src/tetromino.rs. -/
def get_rotation_center_index (shape : Shape) : Option Nat :=
  match shape with
  | .I => some 1
  | .O => none
  | _ => some 0

/-- Spawn placement of a local offset: the source anchors a new piece at
`initial_x_offset = GRID_SIZE_X / 2 - 1 = 4`,
`initial_y_offset = GRID_SIZE_Y - 1 = 19` (src/tetromino.rs). -/
def spawnPos (p : GridPosition) : GridPosition :=
  { x := p.x + (GRID_SIZE_X / 2 - 1), y := p.y + (GRID_SIZE_Y - 1) }

/-- System `spawn_tetromino` from src/tetromino.rs: consume the buffered next
shape, refill the buffer (the random draw is the injected `new_next_shape`),
and either report game over when any of the four spawn cells collides, or
materialise the four blocks (tagging the rotation-centre block) and enter
Playing.  The buffer advances even on the game-over path, as in the source. -/
def spawn_tetromino (w : World) (new_next_shape : Shape) : World :=
  let shape := w.nextPiece
  let blocks := get_tetromino_blocks shape
  if blocks.any (fun bp => check_collision (spawnPos bp) w.staticBlocks) then
    { w with nextPiece := new_next_shape, state := GameState.GameOver }
  else
    { w with
      nextPiece := new_next_shape,
      active := w.active ++ blocks.enum.map fun e =>
        Block.mk (spawnPos e.2) (decide (get_rotation_center_index shape = some e.1)),
      state := GameState.Playing }

/-- Candidate cell one row down, as `gravity_system` and the hard-drop loop
compute it (`y - 1`). -/
def downCand (p : GridPosition) : GridPosition :=
  { x := p.x, y := p.y - 1 }

/-- Test of the loop guard shared by `gravity_system` and `handle_hard_drop`:
some active block cannot move one row down. -/
def dropBlocked (active : List Block) (static_blocks : List GridPosition) : Bool :=
  active.any fun b => check_collision (downCand b.pos) static_blocks

/-- System `gravity_system` from src/game_logic.rs, at a tick where the fall
timer fires: move the whole piece one row down when every block can move,
otherwise land — every active block turns static in place (the `Tetromino`
marker is removed) and the state machine enters Spawning.  With no active
piece the descent trivially succeeds and nothing changes. -/
def gravity_system (w : World) : World :=
  if dropBlocked w.active w.staticBlocks then
    { w with
      staticBlocks := w.staticBlocks ++ w.active.map fun b => b.pos,
      active := [],
      state := GameState.Spawning }
  else
    { w with active := w.active.map fun b => { b with pos := downCand b.pos } }

end BevyTetris

namespace BevyTetris

/-! ### C5 and C6: scoring and level-up -/

/-- C5. A clear event removing `n` rows (`1 ≤ n ≤ 4`) adds exactly
`points(n) * (level + 1)` to the score and exactly `n` to the lines total;
at level 1 the deltas for 1, 2, 3, 4 rows are 80, 200, 600, 2400. -/
theorem clear_event_score (w : World) (n : Nat)
    (hn : cleared_rows w.staticBlocks = n) (h1 : 1 ≤ n) (h4 : n ≤ 4) :
    (clear_lines w).score = w.score + points n * (w.level + 1) ∧
    (clear_lines w).lines = w.lines + n ∧
    (w.level = 1 ∧ n = 1 → (clear_lines w).score = w.score + 80) ∧
    (w.level = 1 ∧ n = 2 → (clear_lines w).score = w.score + 200) ∧
    (w.level = 1 ∧ n = 3 → (clear_lines w).score = w.score + 600) ∧
    (w.level = 1 ∧ n = 4 → (clear_lines w).score = w.score + 2400) := by
  have hpos : 0 < cleared_rows w.staticBlocks := by omega
  have hmain : (clear_lines w).score = w.score + points n * (w.level + 1) ∧
      (clear_lines w).lines = w.lines + n := by
    unfold clear_lines
    rw [if_pos hpos, hn]
    exact ⟨rfl, rfl⟩
  refine ⟨hmain.1, hmain.2, ?_, ?_, ?_, ?_⟩ <;>
    · rintro ⟨hl, hn1⟩
      subst hn1
      rw [hmain.1, hl]
      rfl

/-- Witness for C5: one full bottom row at level 1 awards 80 points and one
line. -/
theorem clear_event_score_witness :
    (clear_lines
        { staticBlocks := fullRowAt 0, active := [], state := GameState.Spawning,
          score := 30, lines := 2, level := 1, nextPiece := Shape.I }).score = 30 + 80 :=
  (clear_event_score _ 1 (by decide) (by decide) (by decide)).2.2.1 ⟨rfl, rfl⟩

/-- C6. After the updated lines total is computed, the level rises by exactly
one when `(lines + n) / 5 > level - 1` and stays unchanged otherwise — never
more than one increment per clear event; in particular a lines total going
from 4 to 5 at level 1 raises the level to exactly 2. -/
theorem clear_event_level (w : World) (n : Nat)
    (hn : cleared_rows w.staticBlocks = n) (h1 : 0 < n) :
    ((clear_lines w).level =
      if w.level - 1 < (w.lines + n) / 5 then w.level + 1 else w.level) ∧
    ((clear_lines w).level = w.level ∨ (clear_lines w).level = w.level + 1) ∧
    ((clear_lines w).lines = w.lines + n) ∧
    (w.lines = 4 → n = 1 → w.level = 1 → (clear_lines w).level = 2) := by
  have hpos : 0 < cleared_rows w.staticBlocks := by omega
  have hlevel : (clear_lines w).level =
      if w.level - 1 < (w.lines + n) / 5 then w.level + 1 else w.level := by
    unfold clear_lines
    rw [if_pos hpos, hn]
  have hlines : (clear_lines w).lines = w.lines + n := by
    unfold clear_lines
    rw [if_pos hpos, hn]
  refine ⟨hlevel, ?_, hlines, ?_⟩
  · rw [hlevel]
    by_cases h : w.level - 1 < (w.lines + n) / 5
    · right; rw [if_pos h]
    · left; rw [if_neg h]
  · intro hl4 hn1 hlev
    rw [hlevel, hl4, hn1, hlev]
    rfl

/-- Witness for C6: a board with one full row, four lines already cleared and
level 1 ends the clear event at level 2. -/
theorem clear_event_level_witness :
    (clear_lines
        { staticBlocks := fullRowAt 0, active := [], state := GameState.Spawning,
          score := 0, lines := 4, level := 1, nextPiece := Shape.T }).level = 2 :=
  (clear_event_level _ 1 (by decide) (by decide)).2.2.2 rfl rfl rfl

end BevyTetris

namespace BevyTetris

/-! ### C7: a colliding spawn reports GameOver and adds nothing -/

/-- C7. Whenever any of the four absolute spawn positions of the buffered
shape collides (with the static board or the boundaries), `spawn_tetromino`
moves the state machine to GameOver, leaves the static board completely
unmodified, and materialises no active blocks. -/
theorem spawn_collision_gameover (w : World) (s : Shape)
    (h : ∃ bp ∈ get_tetromino_blocks w.nextPiece,
        check_collision (spawnPos bp) w.staticBlocks = true) :
    (spawn_tetromino w s).staticBlocks = w.staticBlocks ∧
    (spawn_tetromino w s).state = GameState.GameOver ∧
    (spawn_tetromino w s).active = w.active := by
  obtain ⟨bp, hbp, hcol⟩ := h
  have hany : ((get_tetromino_blocks w.nextPiece).any
      fun bp => check_collision (spawnPos bp) w.staticBlocks) = true :=
    List.any_eq_true.mpr ⟨bp, hbp, hcol⟩
  simp [spawn_tetromino, hany]

/-- Witness for C7: with a static block already at the spawn cell `(4, 19)`,
spawning an I piece reports GameOver and leaves the lone static block as the
whole board. -/
theorem spawn_collision_gameover_witness :
    (spawn_tetromino
        { staticBlocks := [{ x := 4, y := 19 }], active := [],
          state := GameState.Spawning, score := 0, lines := 0, level := 1,
          nextPiece := Shape.I } Shape.O).staticBlocks = [{ x := 4, y := 19 }] ∧
    (spawn_tetromino
        { staticBlocks := [{ x := 4, y := 19 }], active := [],
          state := GameState.Spawning, score := 0, lines := 0, level := 1,
          nextPiece := Shape.I } Shape.O).state = GameState.GameOver :=
  ⟨(spawn_collision_gameover _ Shape.O
      ⟨{ x := 0, y := 0 }, by decide, by decide⟩).1,
   (spawn_collision_gameover _ Shape.O
      ⟨{ x := 0, y := 0 }, by decide, by decide⟩).2.1⟩

/-! ### C10: reset -/

/-- Branch of `handle_input` (src/input.rs) for the reset key: in Playing,
Paused or GameOver every entity with a `GridPosition` is despawned (static
board and active piece alike), the `Score`, `LinesCleared` and `Level`
resources are re-inserted as 0, 0 and 1, and the state machine returns to
Title. -/
def handle_reset (w : World) : World :=
  if w.state = GameState.Playing ∨ w.state = GameState.Paused ∨
      w.state = GameState.GameOver then
    { staticBlocks := [], active := [], state := GameState.Title,
      score := 0, lines := 0, level := 1, nextPiece := w.nextPiece }
  else
    w

/-- C10. Reset from Playing, Paused or GameOver yields score 0, lines 0,
level 1, an empty board with no active piece, and state Title. -/
theorem reset_clears_everything (w : World)
    (h : w.state = GameState.Playing ∨ w.state = GameState.Paused ∨
      w.state = GameState.GameOver) :
    (handle_reset w).score = 0 ∧ (handle_reset w).lines = 0 ∧
    (handle_reset w).level = 1 ∧ (handle_reset w).staticBlocks = [] ∧
    (handle_reset w).active = [] ∧ (handle_reset w).state = GameState.Title := by
  unfold handle_reset
  rw [if_pos h]
  exact ⟨rfl, rfl, rfl, rfl, rfl, rfl⟩

/-- Witness for C10: resetting a populated GameOver world empties it. -/
theorem reset_clears_everything_witness :
    (handle_reset
        { staticBlocks := [{ x := 3, y := 7 }], active := [⟨{ x := 5, y := 9 }, true⟩],
          state := GameState.GameOver, score := 1200, lines := 11, level := 3,
          nextPiece := Shape.Z }).score = 0 ∧
    (handle_reset
        { staticBlocks := [{ x := 3, y := 7 }], active := [⟨{ x := 5, y := 9 }, true⟩],
          state := GameState.GameOver, score := 1200, lines := 11, level := 3,
          nextPiece := Shape.Z }).state = GameState.Title :=
  ⟨(reset_clears_everything _ (by decide)).1,
   (reset_clears_everything _ (by decide)).2.2.2.2.2⟩

end BevyTetris

namespace BevyTetris

/-! ### C9: hard drop

The source's `handle_hard_drop` (src/input.rs) runs `while can_move`: each
iteration tests every active block one row down and either moves the whole
piece or lands it (removing the `Tetromino` markers and entering Spawning).
The loop is modelled with an explicit iteration budget `pieceFuel`: whenever
at least one active block exists, every successful step requires every block
to sit strictly above the floor, so at most `lowY` steps succeed and
`pieceFuel = lowY + 1` iterations always reach the rejection
(`hardDropIter_blocked` below).  With no active block the source loop would
never exit; the handler only runs while an active piece exists, and the model
returns the world unchanged in that vacuous case. -/

/-- Lowest `y` coordinate among the active blocks (0 for no blocks): the
height of the piece's lowest cell above the floor. -/
def lowY (active : List Block) : Int :=
  match active with
  | [] => 0
  | b :: rest => (rest.map fun x => x.pos.y).foldr min b.pos.y

/-- Iteration budget for the hard-drop loop. -/
def pieceFuel (active : List Block) : Nat := (lowY active).toNat + 1

/-- Block positions after running the hard-drop loop for at most `fuel`
iterations: descend one row at a time until the first rejection. -/
def hardDropIter : Nat → List Block → List GridPosition → List Block
  | 0, active, _ => active
  | fuel + 1, active, static_blocks =>
    if dropBlocked active static_blocks then active
    else hardDropIter fuel (active.map fun b => { b with pos := downCand b.pos })
      static_blocks

/-- Number of successful one-row descents performed by the hard-drop loop. -/
def hardDropCount : Nat → List Block → List GridPosition → Nat
  | 0, _, _ => 0
  | fuel + 1, active, static_blocks =>
    if dropBlocked active static_blocks then 0
    else hardDropCount fuel (active.map fun b => { b with pos := downCand b.pos })
      static_blocks + 1

/-- System `handle_hard_drop` from src/input.rs: descend until the first
rejection, then land exactly as gravity does — all blocks become static in
place and the state machine enters Spawning. -/
def handle_hard_drop (w : World) : World :=
  if w.active.isEmpty then w
  else
    { w with
      staticBlocks := w.staticBlocks ++
        (hardDropIter (pieceFuel w.active) w.active w.staticBlocks).map fun b => b.pos,
      active := [],
      state := GameState.Spawning }

lemma foldr_min_le_init (l : List Int) (i : Int) : l.foldr min i ≤ i := by
  induction l with
  | nil => exact le_refl i
  | cons a l ih => exact le_trans (min_le_right a _) ih

lemma foldr_min_le_mem (l : List Int) (i : Int) : ∀ x ∈ l, l.foldr min i ≤ x := by
  induction l with
  | nil => intro x hx; cases hx
  | cons a l ih =>
    intro x hx
    rcases List.mem_cons.mp hx with h | h
    · rw [h]; exact min_le_left _ _
    · exact le_trans (min_le_right a _) (ih x h)

lemma foldr_min_attained (l : List Int) (i : Int) :
    l.foldr min i = i ∨ l.foldr min i ∈ l := by
  induction l with
  | nil => exact Or.inl rfl
  | cons a l ih =>
    rcases le_total a (l.foldr min i) with h | h
    · right
      rw [List.foldr_cons, min_eq_left h]
      exact List.mem_cons_self a l
    · rw [List.foldr_cons, min_eq_right h]
      rcases ih with h' | h'
      · exact Or.inl h'
      · exact Or.inr (List.mem_cons_of_mem a h')

lemma lowY_le (active : List Block) : ∀ b ∈ active, lowY active ≤ b.pos.y := by
  intro b hb
  cases active with
  | nil => cases hb
  | cons a rest =>
    rcases List.mem_cons.mp hb with h | h
    · rw [h]
      exact foldr_min_le_init _ _
    · exact foldr_min_le_mem _ _ b.pos.y (List.mem_map_of_mem _ h)

lemma lowY_attained (active : List Block) (h : active ≠ []) :
    ∃ b ∈ active, b.pos.y = lowY active := by
  cases active with
  | nil => exact absurd rfl h
  | cons a rest =>
    rcases foldr_min_attained (rest.map fun x => x.pos.y) a.pos.y with h' | h'
    · exact ⟨a, List.mem_cons_self a rest, h'.symm⟩
    · obtain ⟨b, hbm, hbe⟩ := List.mem_map.mp h'
      exact ⟨b, List.mem_cons_of_mem a hbm, hbe⟩

lemma foldr_min_map_sub (l : List Int) (i k : Int) :
    (l.map fun x => x - k).foldr min (i - k) = l.foldr min i - k := by
  induction l with
  | nil => rfl
  | cons a l ih =>
    rw [List.map_cons, List.foldr_cons, List.foldr_cons, ih, min_sub_sub_right]

lemma lowY_shift (active : List Block) (k : Int) (h : active ≠ []) :
    lowY (active.map fun b => { b with pos := GridPosition.mk b.pos.x (b.pos.y - k) }) =
      lowY active - k := by
  cases active with
  | nil => exact absurd rfl h
  | cons a rest =>
    show ((rest.map fun b => ({ b with
        pos := GridPosition.mk b.pos.x (b.pos.y - k) } : Block)).map fun x => x.pos.y).foldr
        min (a.pos.y - k) = _
    rw [List.map_map]
    have : ((fun (x : Block) => x.pos.y) ∘ fun b => ({ b with
        pos := GridPosition.mk b.pos.x (b.pos.y - k) } : Block)) =
        fun (b : Block) => b.pos.y - k := rfl
    rw [this]
    have hmm : (rest.map fun (b : Block) => b.pos.y - k) =
        ((rest.map fun (b : Block) => b.pos.y).map fun x => x - k) := by
      rw [List.map_map]; rfl
    rw [hmm, foldr_min_map_sub]
    rfl

lemma lowY_down (active : List Block) (h : active ≠ []) :
    lowY (active.map fun b => { b with pos := downCand b.pos }) = lowY active - 1 := by
  have := lowY_shift active 1 h
  simpa [downCand] using this

lemma drop_free_forall (active : List Block) (static_blocks : List GridPosition)
    (h : dropBlocked active static_blocks = false) :
    ∀ b ∈ active, check_collision (downCand b.pos) static_blocks = false := by
  intro b hb
  have := List.any_eq_false.mp h b hb
  simpa using this

lemma drop_free_ge_one (active : List Block) (static_blocks : List GridPosition)
    (h : dropBlocked active static_blocks = false) :
    ∀ b ∈ active, 1 ≤ b.pos.y := by
  intro b hb
  have hc := check_collision_false_props _ _ (drop_free_forall active static_blocks h b hb)
  have : 0 ≤ b.pos.y - 1 := by simpa [downCand] using hc.2.2.1
  omega

lemma map_down_ne_nil (active : List Block) (h : active ≠ []) :
    (active.map fun b => { b with pos := downCand b.pos }) ≠ [] := by
  cases active with
  | nil => exact absurd rfl h
  | cons a rest => simp

lemma hardDropCount_le (static_blocks : List GridPosition) :
    ∀ (fuel : Nat) (active : List Block), active ≠ [] →
      hardDropCount fuel active static_blocks ≤ (lowY active).toNat := by
  intro fuel
  induction fuel with
  | zero => intro active _; simp [hardDropCount]
  | succ f ih =>
    intro active hne
    by_cases hb : dropBlocked active static_blocks = true
    · simp [hardDropCount, hb]
    · have hb' : dropBlocked active static_blocks = false :=
        Bool.eq_false_iff.mpr hb
      have h1 := drop_free_ge_one active static_blocks hb'
      obtain ⟨b0, hm, he⟩ := lowY_attained active hne
      have hlow1 : 1 ≤ lowY active := he ▸ h1 b0 hm
      have hrec := ih _ (map_down_ne_nil active hne)
      rw [lowY_down active hne] at hrec
      simp only [hardDropCount, hb', Bool.false_eq_true, if_false]
      omega

lemma hardDropIter_blocked (static_blocks : List GridPosition) :
    ∀ (fuel : Nat) (active : List Block), active ≠ [] → (lowY active).toNat < fuel →
      dropBlocked (hardDropIter fuel active static_blocks) static_blocks = true := by
  intro fuel
  induction fuel with
  | zero => intro active _ hf; exact absurd hf (Nat.not_lt_zero _)
  | succ f ih =>
    intro active hne hf
    by_cases hb : dropBlocked active static_blocks = true
    · simpa [hardDropIter, hb] using hb
    · have hb' : dropBlocked active static_blocks = false :=
        Bool.eq_false_iff.mpr hb
      have h1 := drop_free_ge_one active static_blocks hb'
      obtain ⟨b0, hm, he⟩ := lowY_attained active hne
      have hlow1 : 1 ≤ lowY active := he ▸ h1 b0 hm
      have hfuel' : (lowY (active.map fun b => { b with pos := downCand b.pos })).toNat < f := by
        rw [lowY_down active hne]
        omega
      simp only [hardDropIter, hb', Bool.false_eq_true, if_false]
      exact ih _ (map_down_ne_nil active hne) hfuel'

lemma hardDrop_empty_board :
    ∀ (fuel : Nat) (active : List Block), active ≠ [] →
      (∀ b ∈ active, 0 ≤ b.pos.x ∧ b.pos.x < 10 ∧ 0 ≤ b.pos.y) →
      (lowY active).toNat < fuel →
      hardDropIter fuel active [] =
        (active.map fun b => { b with pos := GridPosition.mk b.pos.x (b.pos.y - lowY active) }) ∧
      hardDropCount fuel active [] = (lowY active).toNat := by
  intro fuel
  induction fuel with
  | zero => intro active _ _ hf; exact absurd hf (Nat.not_lt_zero _)
  | succ f ih =>
    intro active hne hlegal hf
    by_cases h0 : lowY active = 0
    · obtain ⟨b0, hm, he⟩ := lowY_attained active hne
      have hblocked : dropBlocked active [] = true := by
        refine List.any_eq_true.mpr ⟨b0, hm, ?_⟩
        have hneg : b0.pos.y - 1 < 0 := by omega
        simp [check_collision, downCand, hneg]
      simp only [hardDropIter, hardDropCount, hblocked, if_true]
      refine ⟨?_, by simp [h0]⟩
      rw [h0]
      have heach : ∀ b ∈ active,
          ({ b with pos := GridPosition.mk b.pos.x (b.pos.y - 0) } : Block) = b := by
        intro b _
        cases b with
        | mk pos c => cases pos; simp
      rw [List.map_congr_left heach]
      simp
    · obtain ⟨b0, hm, he⟩ := lowY_attained active hne
      have hlow1 : 1 ≤ lowY active := by
        have := (hlegal b0 hm).2.2
        omega
      have hnb : dropBlocked active [] = false := by
        refine List.any_eq_false.mpr ?_
        intro b hbm
        simp only [Bool.not_eq_true]
        obtain ⟨hx0, hx10, hy0⟩ := hlegal b hbm
        have hylow := lowY_le active b hbm
        unfold check_collision downCand GRID_SIZE_X
        rw [if_neg]
        · rfl
        · push_neg
          refine ⟨by simpa using hx0, by simpa using hx10, ?_⟩
          simp only
          omega
      have hne' := map_down_ne_nil active hne
      have hlegal' : ∀ b ∈ (active.map fun b => { b with pos := downCand b.pos }),
          0 ≤ b.pos.x ∧ b.pos.x < 10 ∧ 0 ≤ b.pos.y := by
        intro b hbm
        obtain ⟨c, hcm, hce⟩ := List.mem_map.mp hbm
        obtain ⟨hx0, hx10, _⟩ := hlegal c hcm
        have hylow := lowY_le active c hcm
        rw [← hce]
        exact ⟨by simpa [downCand] using hx0, by simpa [downCand] using hx10,
          by simp [downCand]; omega⟩
      have hlow' : lowY (active.map fun b => { b with pos := downCand b.pos }) =
          lowY active - 1 := lowY_down active hne
      have hfuel' : (lowY (active.map fun b => { b with pos := downCand b.pos })).toNat < f := by
        rw [hlow']
        omega
      obtain ⟨hi, hc⟩ := ih _ hne' hlegal' hfuel'
      simp only [hardDropIter, hardDropCount, hnb, Bool.false_eq_true, if_false]
      constructor
      · rw [hi, hlow', List.map_map]
        refine List.map_congr_left fun b _ => ?_
        have harith : b.pos.y - 1 - (lowY active - 1) = b.pos.y - lowY active := by omega
        simp only [Function.comp, downCand]
        rw [harith]
      · rw [hc, hlow']
        omega

end BevyTetris

namespace BevyTetris

/-- C9. Hard drop repeats the one-row descent until the first rejection: the
number of successful steps never exceeds the piece's height above the floor
(`lowY`), so the loop terminates within the `pieceFuel` budget; on an empty
board it performs exactly `lowY` steps and brings the lowest cell to `y = 0`;
and the handler then lands exactly as a gravity-driven landing would — the
whole world update equals `gravity_system` run on the dropped piece, leaving
the blocks static, no active piece, and state Spawning. -/
theorem hard_drop_behaviour (w : World) (hne : w.active ≠ [])
    (hlegal : ∀ b ∈ w.active, 0 ≤ b.pos.x ∧ b.pos.x < 10 ∧ 0 ≤ b.pos.y) :
    hardDropCount (pieceFuel w.active) w.active w.staticBlocks ≤ (lowY w.active).toNat ∧
    (w.staticBlocks = [] →
      hardDropCount (pieceFuel w.active) w.active [] = (lowY w.active).toNat ∧
      lowY (hardDropIter (pieceFuel w.active) w.active []) = 0) ∧
    (handle_hard_drop w).active = [] ∧
    (handle_hard_drop w).state = GameState.Spawning ∧
    handle_hard_drop w =
      gravity_system { w with
        active := hardDropIter (pieceFuel w.active) w.active w.staticBlocks } := by
  have hie : w.active.isEmpty = false := by
    cases h : w.active with
    | nil => exact absurd h hne
    | cons a t => rfl
  have hfuel : (lowY w.active).toNat < pieceFuel w.active := Nat.lt_succ_self _
  refine ⟨hardDropCount_le w.staticBlocks _ _ hne, ?_, ?_, ?_, ?_⟩
  · intro hempty
    obtain ⟨hi, hc⟩ := hardDrop_empty_board (pieceFuel w.active) w.active hne hlegal hfuel
    refine ⟨hc, ?_⟩
    rw [hi, lowY_shift w.active (lowY w.active) hne]
    omega
  · simp [handle_hard_drop, hie]
  · simp [handle_hard_drop, hie]
  · have hblocked :
        dropBlocked (hardDropIter (pieceFuel w.active) w.active w.staticBlocks)
          w.staticBlocks = true :=
      hardDropIter_blocked w.staticBlocks (pieceFuel w.active) w.active hne hfuel
    simp [handle_hard_drop, hie, gravity_system, hblocked]

/-- Demonstration world for the C9 witness: an I piece just spawned at row 19
on an empty board. -/
def demoIWorld : World :=
  { staticBlocks := [], state := GameState.Playing, score := 0, lines := 0, level := 1,
    nextPiece := Shape.O,
    active := [⟨{ x := 3, y := 19 }, false⟩, ⟨{ x := 4, y := 19 }, true⟩,
               ⟨{ x := 5, y := 19 }, false⟩, ⟨{ x := 6, y := 19 }, false⟩] }

/-- Witness for C9: on the empty board the I piece at height 19 makes exactly
19 successful descents and its lowest cell ends at the floor. -/
theorem hard_drop_behaviour_witness :
    hardDropCount (pieceFuel demoIWorld.active) demoIWorld.active [] =
      (lowY demoIWorld.active).toNat ∧
    lowY (hardDropIter (pieceFuel demoIWorld.active) demoIWorld.active []) = 0 :=
  (hard_drop_behaviour demoIWorld (by decide) (by decide)).2.1 rfl

end BevyTetris

namespace BevyTetris

/-! ### C8: board invariants -/

/-- Legality of a single cell for an active block: inside the walls and on or
above the floor. -/
def legalPos (p : GridPosition) : Prop :=
  0 ≤ p.x ∧ p.x < 10 ∧ 0 ≤ p.y

lemma hCand_inj (d : Int) : Function.Injective (hCand d) := by
  intro p q h
  cases p with
  | mk px py =>
    cases q with
    | mk qx qy =>
      simp only [hCand, GridPosition.mk.injEq] at h
      rw [GridPosition.mk.injEq]
      omega

lemma vCand_inj (d : Int) : Function.Injective (vCand d) := by
  intro p q h
  cases p with
  | mk px py =>
    cases q with
    | mk qx qy =>
      simp only [vCand, GridPosition.mk.injEq] at h
      rw [GridPosition.mk.injEq]
      omega

lemma downCand_inj : Function.Injective downCand := by
  intro p q h
  cases p with
  | mk px py =>
    cases q with
    | mk qx qy =>
      simp only [downCand, GridPosition.mk.injEq] at h
      rw [GridPosition.mk.injEq]
      omega

lemma rotCand_inj (c : GridPosition) : Function.Injective (rotCand c) := by
  intro p q h
  cases p with
  | mk px py =>
    cases q with
    | mk qx qy =>
      simp only [rotCand, GridPosition.mk.injEq] at h
      rw [GridPosition.mk.injEq]
      omega

lemma spawnPos_inj : Function.Injective spawnPos := by
  intro p q h
  cases p with
  | mk px py =>
    cases q with
    | mk qx qy =>
      simp only [spawnPos, GridPosition.mk.injEq] at h
      rw [GridPosition.mk.injEq]
      omega

lemma shift_strict_mono (blocks : List GridPosition) (a b : Nat) (hab : a < b)
    (hnf : ¬ rowCount blocks (a : Int) = 10) :
    (a : Int) - shiftAtN blocks a < (b : Int) - shiftAtN blocks b := by
  induction b with
  | zero => exact absurd hab (Nat.not_lt_zero a)
  | succ b ihb =>
    rcases Nat.lt_succ_iff_lt_or_eq.mp hab with h | h
    · have h1 := ihb h
      have h2 := shiftAtN_succ blocks b
      have h3 : shiftAtN blocks (b + 1) ≤ shiftAtN blocks b + 1 := by
        rw [h2]
        by_cases hb10 : rowCount blocks (b : Int) = 10 <;> simp [hb10]
      push_cast
      push_cast at h1
      omega
    · subst h
      have h2 := shiftAtN_succ blocks a
      rw [h2, if_neg hnf]
      push_cast
      omega

lemma clearedPos_some_in (blocks : List GridPosition) (p q : GridPosition)
    (hin : 0 ≤ p.y ∧ p.y < 20) (h : clearedPos blocks p = some q) :
    ¬ rowCount blocks p.y = 10 ∧
    q = GridPosition.mk p.x (p.y - (shiftAtN blocks p.y.toNat : Int)) ∧
    0 ≤ q.y ∧ q.y ≤ p.y := by
  unfold clearedPos at h
  rw [if_pos hin] at h
  by_cases hfull : rowCount blocks p.y = 10
  · rw [if_pos hfull] at h
    cases h
  · rw [if_neg hfull] at h
    have hq := Option.some_injective _ h.symm
    have hle : shiftAtN blocks p.y.toNat ≤ p.y.toNat := shiftAtN_le blocks p.y.toNat
    refine ⟨hfull, hq, ?_, ?_⟩
    · rw [hq]
      simp only
      omega
    · rw [hq]
      simp only
      omega

lemma clearedPos_inj (blocks : List GridPosition) (p p' q : GridPosition)
    (hq : q ∈ clearedPos blocks p) (hq' : q ∈ clearedPos blocks p') : p = p' := by
  rw [Option.mem_def] at hq hq'
  by_cases h1 : 0 ≤ p.y ∧ p.y < 20 <;> by_cases h2 : 0 ≤ p'.y ∧ p'.y < 20
  · -- both rows are inside the sweep
    obtain ⟨hnf1, hq1, _, _⟩ := clearedPos_some_in blocks p q h1 hq
    obtain ⟨hnf2, hq2, _, _⟩ := clearedPos_some_in blocks p' q h2 hq'
    have hmk := hq1.symm.trans hq2
    rw [GridPosition.mk.injEq] at hmk
    have hx : p.x = p'.x := hmk.1
    have hyeq : p.y - (shiftAtN blocks p.y.toNat : Int) =
        p'.y - (shiftAtN blocks p'.y.toNat : Int) := hmk.2
    have hy : p.y = p'.y := by
      rcases lt_trichotomy p.y p'.y with hlt | heq | hgt
      · exfalso
        have := shift_strict_mono blocks p.y.toNat p'.y.toNat (by omega)
          (by rwa [Int.toNat_of_nonneg h1.1])
        rw [Int.toNat_of_nonneg h1.1, Int.toNat_of_nonneg h2.1] at this
        omega
      · exact heq
      · exfalso
        have := shift_strict_mono blocks p'.y.toNat p.y.toNat (by omega)
          (by rwa [Int.toNat_of_nonneg h2.1])
        rw [Int.toNat_of_nonneg h1.1, Int.toNat_of_nonneg h2.1] at this
        omega
    cases p; cases p'
    simp_all
  · -- p swept, p' untouched: the images live in different rows
    obtain ⟨_, _, hq0, hqle⟩ := clearedPos_some_in blocks p q h1 hq
    have hqp' : q = p' := by
      unfold clearedPos at hq'
      rw [if_neg h2] at hq'
      exact (Option.some_injective _ hq').symm
    exfalso
    rw [hqp'] at hq0 hqle
    omega
  · obtain ⟨_, _, hq0, hqle⟩ := clearedPos_some_in blocks p' q h2 hq'
    have hqp : q = p := by
      unfold clearedPos at hq
      rw [if_neg h1] at hq
      exact (Option.some_injective _ hq).symm
    exfalso
    rw [hqp] at hq0 hqle
    omega
  · -- both untouched
    unfold clearedPos at hq hq'
    rw [if_neg h1] at hq
    rw [if_neg h2] at hq'
    exact (Option.some_injective _ hq).trans (Option.some_injective _ hq').symm

lemma clear_lines_blocks_nodup (blocks : List GridPosition) (h : blocks.Nodup) :
    (clear_lines_blocks blocks).Nodup := by
  rw [clear_lines_blocks_eq]
  exact List.Nodup.filterMap (fun a a' bq hb hb' => clearedPos_inj blocks a a' bq hb hb') h

end BevyTetris

namespace BevyTetris

/-- Session invariant of the board: static block entities occupy pairwise
distinct cells; active blocks occupy pairwise distinct, legal cells disjoint
from the static board; outside Playing/Paused no active piece exists. -/
structure Inv (w : World) : Prop where
  staticNodup : w.staticBlocks.Nodup
  activeNodup : (w.active.map fun b => b.pos).Nodup
  activeLegal : ∀ b ∈ w.active, legalPos b.pos
  activeFree : ∀ b ∈ w.active, b.pos ∉ w.staticBlocks
  inactiveEmpty : (w.state = GameState.Title ∨ w.state = GameState.Spawning ∨
      w.state = GameState.GameOver) → w.active = []

/-- Single operations of the core, with the state guards under which the
schedule runs them: `handle_input` actions (start, pause, resume, reset,
movement, rotation, hard drop), the gravity tick, and the Spawning cascade
`OnEnter(Spawning), (clear_lines, spawn_tetromino).chain()`. -/
inductive Step : World → World → Prop where
  | start (w : World) : w.state = GameState.Title →
      Step w { w with state := GameState.Spawning }
  | pause (w : World) : w.state = GameState.Playing →
      Step w { w with state := GameState.Paused }
  | resume (w : World) : w.state = GameState.Paused →
      Step w { w with state := GameState.Playing }
  | reset (w : World) :
      (w.state = GameState.Playing ∨ w.state = GameState.Paused ∨
        w.state = GameState.GameOver) →
      Step w (handle_reset w)
  | rotate (w : World) : w.state = GameState.Playing →
      Step w { w with active := handle_rotation w.active w.staticBlocks }
  | moveH (w : World) (d : Int) : w.state = GameState.Playing →
      Step w { w with active := handle_horizontal_movement w.active w.staticBlocks d }
  | moveV (w : World) (d : Int) : w.state = GameState.Playing →
      Step w { w with active := handle_vertical_movement w.active w.staticBlocks d }
  | hardDrop (w : World) : w.state = GameState.Playing →
      Step w (handle_hard_drop w)
  | gravity (w : World) : w.state = GameState.Playing →
      Step w (gravity_system w)
  | spawnCycle (w : World) (s : Shape) : w.state = GameState.Spawning →
      Step w (spawn_tetromino (clear_lines w) s)

/-- Session start: empty board, zero counters, level 1, Title state, an
arbitrary buffered shape. -/
def initWorld (s : Shape) : World :=
  { staticBlocks := [], active := [], state := GameState.Title,
    score := 0, lines := 0, level := 1, nextPiece := s }

/-- States reachable from a fresh session by the scheduled operations. -/
inductive Reachable : World → Prop where
  | init (s : Shape) : Reachable (initWorld s)
  | step {w w' : World} : Reachable w → Step w w' → Reachable w'

lemma map_pos_update (active : List Block) (f : GridPosition → GridPosition) :
    ((active.map fun b => { b with pos := f b.pos }).map fun b => b.pos) =
      (active.map fun b => b.pos).map f := by
  rw [List.map_map, List.map_map]
  rfl

lemma mem_enum_snd {α : Type} (l : List α) (e : Nat × α) (h : e ∈ l.enum) : e.2 ∈ l := by
  have hmem : e.2 ∈ l.enum.map Prod.snd := List.mem_map_of_mem Prod.snd h
  rwa [List.enum_map_snd] at hmem

lemma move_inv (w : World) (f : GridPosition → GridPosition) (hinj : Function.Injective f)
    (hInv : Inv w) (hstate : w.state = GameState.Playing)
    (hok : ∀ b ∈ w.active, check_collision (f b.pos) w.staticBlocks = false) :
    Inv { w with active := w.active.map fun b => { b with pos := f b.pos } } := by
  refine ⟨hInv.staticNodup, ?_, ?_, ?_, ?_⟩
  · show ((w.active.map fun b => { b with pos := f b.pos }).map fun b => b.pos).Nodup
    rw [map_pos_update]
    exact List.Nodup.map hinj hInv.activeNodup
  · intro b hb
    obtain ⟨c, hc, hce⟩ := List.mem_map.mp hb
    have hprops := check_collision_false_props _ _ (hok c hc)
    rw [← hce]
    exact ⟨hprops.1, hprops.2.1, hprops.2.2.1⟩
  · intro b hb
    obtain ⟨c, hc, hce⟩ := List.mem_map.mp hb
    have hprops := check_collision_false_props _ _ (hok c hc)
    rw [← hce]
    exact hprops.2.2.2
  · intro h
    rcases h with h | h | h <;> exact absurd (hstate.symm.trans h) (by decide)

lemma hardDropIter_props (static_blocks : List GridPosition) :
    ∀ (fuel : Nat) (active : List Block),
      (active.map fun b => b.pos).Nodup →
      (∀ b ∈ active, legalPos b.pos) →
      (∀ b ∈ active, b.pos ∉ static_blocks) →
      ((hardDropIter fuel active static_blocks).map fun b => b.pos).Nodup ∧
      (∀ b ∈ hardDropIter fuel active static_blocks, legalPos b.pos) ∧
      (∀ b ∈ hardDropIter fuel active static_blocks, b.pos ∉ static_blocks) := by
  intro fuel
  induction fuel with
  | zero =>
    intro active h1 h2 h3
    exact ⟨h1, h2, h3⟩
  | succ f ih =>
    intro active h1 h2 h3
    by_cases hb : dropBlocked active static_blocks = true
    · simp only [hardDropIter, hb, if_true]
      exact ⟨h1, h2, h3⟩
    · have hb' : dropBlocked active static_blocks = false := Bool.eq_false_iff.mpr hb
      have hfree := drop_free_forall active static_blocks hb'
      simp only [hardDropIter, hb', Bool.false_eq_true, if_false]
      apply ih
      · rw [map_pos_update]
        exact List.Nodup.map downCand_inj h1
      · intro b hbm
        obtain ⟨c, hc, hce⟩ := List.mem_map.mp hbm
        have hprops := check_collision_false_props _ _ (hfree c hc)
        rw [← hce]
        exact ⟨hprops.1, hprops.2.1, hprops.2.2.1⟩
      · intro b hbm
        obtain ⟨c, hc, hce⟩ := List.mem_map.mp hbm
        have hprops := check_collision_false_props _ _ (hfree c hc)
        rw [← hce]
        exact hprops.2.2.2

lemma spawn_active_pos (blocks : List GridPosition) (c : Nat × GridPosition → Bool) :
    ((blocks.enum.map fun e => Block.mk (spawnPos e.2) (c e)).map fun b => b.pos) =
      blocks.map spawnPos := by
  rw [List.map_map]
  have h1 : ((fun (b : Block) => b.pos) ∘ fun e => Block.mk (spawnPos e.2) (c e)) =
      fun (e : Nat × GridPosition) => spawnPos e.2 := rfl
  rw [h1]
  have h2 : (fun (e : Nat × GridPosition) => spawnPos e.2) = spawnPos ∘ Prod.snd := rfl
  rw [h2, ← List.map_map, List.enum_map_snd]

lemma get_tetromino_blocks_spawn_nodup (s : Shape) :
    ((get_tetromino_blocks s).map spawnPos).Nodup := by
  cases s <;> decide

lemma clear_lines_world_fields (w : World) :
    (clear_lines w).staticBlocks = clear_lines_blocks w.staticBlocks ∧
    (clear_lines w).active = w.active ∧
    (clear_lines w).state = w.state ∧
    (clear_lines w).nextPiece = w.nextPiece := by
  unfold clear_lines
  by_cases h : 0 < cleared_rows w.staticBlocks <;> simp [h]

end BevyTetris

namespace BevyTetris

lemma spawn_preserves_inv (w1 : World) (s : Shape)
    (hsn : w1.staticBlocks.Nodup) (hactive1 : w1.active = []) :
    Inv (spawn_tetromino w1 s) := by
  by_cases hany : ((get_tetromino_blocks w1.nextPiece).any fun bp =>
      check_collision (spawnPos bp) w1.staticBlocks) = true
  · have hdef : spawn_tetromino w1 s =
        { w1 with nextPiece := s, state := GameState.GameOver } := by
      simp [spawn_tetromino, hany]
    rw [hdef]
    refine ⟨hsn, ?_, ?_, ?_, ?_⟩
    · dsimp only
      rw [hactive1]
      simp
    · intro b hb
      dsimp only at hb
      rw [hactive1] at hb
      simp at hb
    · intro b hb
      dsimp only at hb
      rw [hactive1] at hb
      simp at hb
    · intro _
      exact hactive1
  · have hany' := Bool.eq_false_iff.mpr hany
    have hfree : ∀ bp ∈ get_tetromino_blocks w1.nextPiece,
        check_collision (spawnPos bp) w1.staticBlocks = false := by
      intro bp hbp
      have := List.any_eq_false.mp hany' bp hbp
      simpa using this
    have hdef : spawn_tetromino w1 s = { w1 with
        nextPiece := s,
        active := w1.active ++
          (get_tetromino_blocks w1.nextPiece).enum.map fun e =>
            Block.mk (spawnPos e.2)
              (decide (get_rotation_center_index w1.nextPiece = some e.1)),
        state := GameState.Playing } := by
      simp [spawn_tetromino, hany']
    rw [hdef]
    refine ⟨hsn, ?_, ?_, ?_, ?_⟩
    · dsimp only
      rw [hactive1, List.nil_append, spawn_active_pos]
      exact get_tetromino_blocks_spawn_nodup _
    · intro b hb
      dsimp only at hb
      rw [hactive1, List.nil_append] at hb
      obtain ⟨e, he, hbe⟩ := List.mem_map.mp hb
      have hbp := mem_enum_snd _ e he
      have hprops := check_collision_false_props _ _ (hfree e.2 hbp)
      rw [← hbe]
      exact ⟨hprops.1, hprops.2.1, hprops.2.2.1⟩
    · intro b hb
      dsimp only at hb
      rw [hactive1, List.nil_append] at hb
      obtain ⟨e, he, hbe⟩ := List.mem_map.mp hb
      have hbp := mem_enum_snd _ e he
      have hprops := check_collision_false_props _ _ (hfree e.2 hbp)
      rw [← hbe]
      exact hprops.2.2.2
    · intro h
      rcases h with h | h | h <;> simp at h

lemma step_preserves_inv (w w' : World) (hInv : Inv w) (hs : Step w w') : Inv w' := by
  cases hs with
  | start hstate =>
    refine ⟨hInv.staticNodup, hInv.activeNodup, hInv.activeLegal, hInv.activeFree, ?_⟩
    intro _
    exact hInv.inactiveEmpty (Or.inl hstate)
  | pause hstate =>
    refine ⟨hInv.staticNodup, hInv.activeNodup, hInv.activeLegal, hInv.activeFree, ?_⟩
    intro h
    rcases h with h | h | h <;> simp at h
  | resume hstate =>
    refine ⟨hInv.staticNodup, hInv.activeNodup, hInv.activeLegal, hInv.activeFree, ?_⟩
    intro h
    rcases h with h | h | h <;> simp at h
  | reset hc =>
    unfold handle_reset
    rw [if_pos hc]
    exact ⟨List.nodup_nil, by simp, by simp, by simp, fun _ => rfl⟩
  | rotate hstate =>
    by_cases hany : (w.active.any fun b =>
        check_collision (rotCand (rotationCenterPos w.active) b.pos) w.staticBlocks) = true
    · have hid : handle_rotation w.active w.staticBlocks = w.active := by
        simp [handle_rotation, hany]
      rw [hid]
      exact ⟨hInv.staticNodup, hInv.activeNodup, hInv.activeLegal, hInv.activeFree,
        fun h => hInv.inactiveEmpty h⟩
    · have hany' := Bool.eq_false_iff.mpr hany
      have hmap : handle_rotation w.active w.staticBlocks =
          w.active.map fun b => { b with pos := rotCand (rotationCenterPos w.active) b.pos } := by
        simp [handle_rotation, hany']
      rw [hmap]
      refine move_inv w _ (rotCand_inj _) hInv hstate fun b hb => ?_
      have := List.any_eq_false.mp hany' b hb
      simpa using this
  | moveH d hstate =>
    by_cases hany : (w.active.any fun b =>
        check_collision (hCand d b.pos) w.staticBlocks) = true
    · have hid : handle_horizontal_movement w.active w.staticBlocks d = w.active := by
        simp [handle_horizontal_movement, hany]
      rw [hid]
      exact ⟨hInv.staticNodup, hInv.activeNodup, hInv.activeLegal, hInv.activeFree,
        fun h => hInv.inactiveEmpty h⟩
    · have hany' := Bool.eq_false_iff.mpr hany
      have hmap : handle_horizontal_movement w.active w.staticBlocks d =
          w.active.map fun b => { b with pos := hCand d b.pos } := by
        simp [handle_horizontal_movement, hany']
      rw [hmap]
      refine move_inv w _ (hCand_inj d) hInv hstate fun b hb => ?_
      have := List.any_eq_false.mp hany' b hb
      simpa using this
  | moveV d hstate =>
    by_cases hany : (w.active.any fun b =>
        check_collision (vCand d b.pos) w.staticBlocks) = true
    · have hid : handle_vertical_movement w.active w.staticBlocks d = w.active := by
        simp [handle_vertical_movement, hany]
      rw [hid]
      exact ⟨hInv.staticNodup, hInv.activeNodup, hInv.activeLegal, hInv.activeFree,
        fun h => hInv.inactiveEmpty h⟩
    · have hany' := Bool.eq_false_iff.mpr hany
      have hmap : handle_vertical_movement w.active w.staticBlocks d =
          w.active.map fun b => { b with pos := vCand d b.pos } := by
        simp [handle_vertical_movement, hany']
      rw [hmap]
      refine move_inv w _ (vCand_inj d) hInv hstate fun b hb => ?_
      have := List.any_eq_false.mp hany' b hb
      simpa using this
  | hardDrop hstate =>
    by_cases hne : w.active = []
    · have hid : handle_hard_drop w = w := by simp [handle_hard_drop, hne]
      rw [hid]
      exact hInv
    · have hie : w.active.isEmpty = false := by
        cases h : w.active with
        | nil => exact absurd h hne
        | cons a t => rfl
      have hprops := hardDropIter_props w.staticBlocks (pieceFuel w.active) w.active
        hInv.activeNodup hInv.activeLegal hInv.activeFree
      have hdef : handle_hard_drop w = { w with
          staticBlocks := w.staticBlocks ++
            (hardDropIter (pieceFuel w.active) w.active w.staticBlocks).map fun b => b.pos,
          active := [], state := GameState.Spawning } := by
        simp [handle_hard_drop, hie]
      rw [hdef]
      refine ⟨?_, by simp, by simp, by simp, fun _ => rfl⟩
      refine List.Nodup.append hInv.staticNodup hprops.1 ?_
      intro a ha hmem
      obtain ⟨b, hb, hbe⟩ := List.mem_map.mp hmem
      rw [← hbe] at ha
      exact hprops.2.2 b hb ha
  | gravity hstate =>
    by_cases hb : dropBlocked w.active w.staticBlocks = true
    · have hdef : gravity_system w = { w with
          staticBlocks := w.staticBlocks ++ w.active.map fun b => b.pos,
          active := [], state := GameState.Spawning } := by
        simp [gravity_system, hb]
      rw [hdef]
      refine ⟨?_, by simp, by simp, by simp, fun _ => rfl⟩
      refine List.Nodup.append hInv.staticNodup hInv.activeNodup ?_
      intro a ha hmem
      obtain ⟨b, hb2, hbe⟩ := List.mem_map.mp hmem
      rw [← hbe] at ha
      exact hInv.activeFree b hb2 ha
    · have hb' := Bool.eq_false_iff.mpr hb
      have hdef : gravity_system w = { w with
          active := w.active.map fun b => { b with pos := downCand b.pos } } := by
        simp [gravity_system, hb']
      rw [hdef]
      exact move_inv w downCand downCand_inj hInv hstate (drop_free_forall _ _ hb')
  | spawnCycle s hstate =>
    obtain ⟨hf1, hf2, hf3, hf4⟩ := clear_lines_world_fields w
    have hactive1 : (clear_lines w).active = [] := by
      rw [hf2]
      exact hInv.inactiveEmpty (Or.inr (Or.inl hstate))
    have hsn : (clear_lines w).staticBlocks.Nodup := by
      rw [hf1]
      exact clear_lines_blocks_nodup _ hInv.staticNodup
    exact spawn_preserves_inv (clear_lines w) s hsn hactive1

end BevyTetris

namespace BevyTetris

/-- C8. Every scheduled operation preserves the board invariant, and in every
reachable state no two static blocks occupy the same grid cell and no active
block is illegal or shares a cell with a static block. -/
theorem reachable_board_invariant :
    (∀ w w' : World, Inv w → Step w w' → Inv w') ∧
    (∀ w : World, Reachable w →
      w.staticBlocks.Nodup ∧
      (∀ b ∈ w.active, legalPos b.pos) ∧
      (∀ b ∈ w.active, b.pos ∉ w.staticBlocks)) := by
  refine ⟨step_preserves_inv, ?_⟩
  intro w hr
  have hInv : Inv w := by
    induction hr with
    | init s =>
      refine ⟨List.nodup_nil, List.nodup_nil, ?_, ?_, fun _ => rfl⟩ <;>
        exact fun b hb => absurd hb (List.not_mem_nil b)
    | step _ hs ih => exact step_preserves_inv _ _ ih hs
  exact ⟨hInv.staticNodup, hInv.activeLegal, hInv.activeFree⟩

/-- Witness for C8: the invariant instantiated at a fresh session. -/
theorem reachable_board_invariant_witness :
    (initWorld Shape.I).staticBlocks.Nodup ∧
    (∀ b ∈ (initWorld Shape.I).active, legalPos b.pos) ∧
    (∀ b ∈ (initWorld Shape.I).active, b.pos ∉ (initWorld Shape.I).staticBlocks) :=
  reachable_board_invariant.2 (initWorld Shape.I) (Reachable.init Shape.I)

end BevyTetris
